import Mathlib

/-!
Shallow embedding of the HSUS order-status Google Apps Script repository.

Sheets are modelled as Lean lists of typed rows (data rows only, headers
implicit, except where a function manipulates the header explicitly).
JavaScript numbers parsed with parseInt or parseFloat are modelled as
Option Int or Option Rat, with none standing for NaN.  Dates and
timestamps are modelled as Nat ticks.  Cell text is modelled as String;
the empty string models an empty cell.
-/

namespace HSUS

/-- Characters treated as whitespace by the JavaScript String.trim model. -/
def isWs (c : Char) : Bool := c = ' ' ∨ c = '\t' ∨ c = '\n' ∨ c = '\r'

/-- Model of JavaScript String.prototype.trim on a character list. -/
def trimCh (cs : List Char) : List Char :=
  ((cs.dropWhile isWs).reverse.dropWhile isWs).reverse

/-- Model of JavaScript String.prototype.split on a single separator
character: splitting the empty string yields one empty field. -/
def splitOnCh (sep : Char) : List Char → List (List Char)
  | [] => [[]]
  | c :: cs =>
    let r := splitOnCh sep cs
    if c = sep then [] :: r
    else (c :: r.headD []) :: r.tail

/-- Model of value.split(sep).map(s => s.trim()).filter(Boolean), the
serial-list parsing used by onEditSerial. -/
def splitTrim (v : String) : List String :=
  ((splitOnCh ',' v.data).map (fun cs => String.mk (trimCh cs))).filter (fun s => s ≠ "")

/-- Deduplication keeping the first occurrence, the iteration order of a
JavaScript Set built from an array. -/
def dedupFirst : List String → List String
  | [] => []
  | s :: rest => s :: (dedupFirst rest).filter (fun x => x ≠ s)

/-- Apply f to the element at index i, leaving every other element alone
(model of writing one cell of an in-memory row array). -/
def modifyAt (f : α → α) : Nat → List α → List α
  | _, [] => []
  | 0, a :: as => f a :: as
  | n + 1, a :: as => a :: modifyAt f n as

/-- First index whose element satisfies p: the for-loop-with-break search
used to locate a key row. -/
def findFirstIdx (p : α → Bool) : List α → Option Nat
  | [] => none
  | a :: as => if p a then some 0 else (findFirstIdx p as).map (· + 1)

/-- Last index whose element satisfies p: the index a JavaScript Map holds
after map.set has been called for every row in order. -/
def findLastIdx (p : α → Bool) : List α → Option Nat
  | [] => none
  | a :: as =>
    match findLastIdx p as with
    | some i => some (i + 1)
    | none => if p a then some 0 else none

/-- Code-unit comparison of strings, the order used by the default
JavaScript Array.prototype.sort on strings. -/
def strLe (a b : String) : Prop := a.data ≤ b.data

instance : DecidableRel strLe := fun a b => inferInstanceAs (Decidable (a.data ≤ b.data))

instance : IsTotal String strLe := ⟨fun a b => le_total a.data b.data⟩

instance : IsTrans String strLe := ⟨fun _ _ _ h1 h2 => le_trans h1 h2⟩

/-! ## Shipment_Planning_DB and savePlanningData (src/[PAUSE]EditLog_onEdit.js) -/

/-- One data row of the Shipment_Planning_DB sheet, columns A..G:
timestamp, user, PO|SKU key, est. ship date, qty East, qty West, status. -/
structure PlanRow where
  a : Nat
  b : String
  c : String
  d : Nat
  e : Int
  f : Int
  g : String
deriving DecidableEq, Repr

/-- The form payload handed to savePlanningData, with the three
quantities already sent through parseInt (none models NaN). -/
structure PlanInput where
  poSkuKey : String
  estShipDate : Nat
  totalQtyP : Option Int
  qtyEP : Option Int
  qtyWP : Option Int
deriving DecidableEq, Repr

/-- Session data: active user email and the current timestamp. -/
structure Env where
  user : String
  now : Nat
deriving DecidableEq, Repr

/-- savePlanningData: validates qtyE + qtyW against totalQty, then updates
columns A..F of the first row whose column C equals the key, or appends a
new six-cell row (column G left empty).  Returns the success flag of the
result object together with the resulting sheet. -/
def savePlanningData (env : Env) (input : PlanInput) (sheet : List PlanRow) :
    Bool × List PlanRow :=
  let qtyE := input.qtyEP.getD 0
  let qtyW := input.qtyWP.getD 0
  if input.totalQtyP ≠ some (qtyE + qtyW) then
    (false, sheet)
  else
    match findFirstIdx (fun r => r.c = input.poSkuKey) sheet with
    | some i =>
      (true, modifyAt (fun r =>
        { r with a := env.now, b := env.user, c := input.poSkuKey,
                 d := input.estShipDate, e := qtyE, f := qtyW }) i sheet)
    | none =>
      (true, sheet ++ [⟨env.now, env.user, input.poSkuKey, input.estShipDate, qtyE, qtyW, ""⟩])

/-- savePlanningData as seen through its try/catch guard when the
planning sheet itself may be missing: a missing sheet is caught and
reported as success = false, never as an uncaught exception. -/
def savePlanningDataFull (env : Env) (input : PlanInput) (sheet? : Option (List PlanRow)) :
    Bool × Option (List PlanRow) :=
  match sheet? with
  | none => (false, none)
  | some s =>
    let r := savePlanningData env input s
    (r.1, some r.2)

/-! ## BOL_DB, the script cache and saveBolData (src/BolEntryToolgs.js) -/

/-- One data row of the BOL_DB sheet, columns A..H: BOL number, PO|SKU
key, shipped qty, shipping fee, actual ship date, signed flag, status,
timestamp. -/
structure BolRow where
  bolNumber : String
  key : String
  shippedQty : Int
  shippingFee : Rat
  actShipDate : Nat
  signed : String
  status : String
  ts : Nat
deriving DecidableEq, Repr

/-- One BOL entry of the frontend payload, quantities already sent
through parseInt / parseFloat (none models NaN). -/
structure BolEntry where
  bolNumber : String
  shippedQtyP : Option Int
  shippingFeeP : Option Rat
  signed : String
deriving DecidableEq, Repr

/-- The payload handed to saveBolData. -/
structure BolData where
  poSkuKey : String
  actShipDate : Nat
  isFulfilled : Bool
  bols : List BolEntry
deriving DecidableEq, Repr

/-- An entry of the pending or fulfilled list returned to the sidebar. -/
structure BolItem where
  key : String
  display : String
deriving DecidableEq, Repr

/-- The script cache restricted to the two keys the BOL tool uses.  Each
present entry carries its JSON payload (modelled already parsed) and the
TTL in seconds it was stored with. -/
structure BolCache where
  pending : Option (List BolItem × Nat)
  fulfilled : Option (List BolItem × Nat)
deriving DecidableEq, Repr

/-- The row saveBolData builds for one accepted BOL entry (a NaN
shipping fee is stored as 0). -/
def mkBolRow (d : BolData) (ts : Nat) (b : BolEntry) (q : Int) : BolRow :=
  ⟨b.bolNumber, d.poSkuKey, q, b.shippingFeeP.getD 0, d.actShipDate, b.signed,
   (if d.isFulfilled then "Fulfilled" else ""), ts⟩

/-- updateFulfillmentStatus: writes the timestamp into column A and the
status into column G of the first Shipment_Planning_DB row whose column C
equals the key, then breaks. -/
def updateFulfillmentStatus (keyToUpdate status : String) (ts : Nat)
    (plan : List PlanRow) : List PlanRow :=
  match findFirstIdx (fun r => r.c = keyToUpdate) plan with
  | some i => modifyAt (fun r => { r with a := ts, g := status }) i plan
  | none => plan

/-- The result record of saveBolData: success flag of the returned
object, and the BOL sheet, planning sheet and script cache afterwards. -/
structure BolSaveOut where
  success : Bool
  bol : List BolRow
  plan : List PlanRow
  cache : BolCache
deriving DecidableEq, Repr

/-- saveBolData: deletes every BOL_DB data row carrying the key, appends
one fresh row per entry with a non-empty BOL number and positive parsed
quantity, updates the planning row through updateFulfillmentStatus, and
removes both cache keys.  An empty key is thrown and caught, returning
success = false with nothing changed. -/
def saveBolData (ts : Nat) (d : BolData) (bol : List BolRow)
    (plan : List PlanRow) (cache : BolCache) : BolSaveOut :=
  if d.poSkuKey = "" then ⟨false, bol, plan, cache⟩
  else
    let kept := bol.filter (fun r => r.key ≠ d.poSkuKey)
    let newStatus := if d.isFulfilled then "Fulfilled" else ""
    let newRows := d.bols.filterMap (fun b =>
      match b.shippedQtyP with
      | some q => if b.bolNumber ≠ "" ∧ q > 0 then some (mkBolRow d ts b q) else none
      | none => none)
    ⟨true, kept ++ newRows, updateFulfillmentStatus d.poSkuKey newStatus ts plan,
     ⟨none, none⟩⟩

/-- The two lists getInitialBolData computes from Shipment_Planning_DB on
a cache miss: pending entries deduplicated by key in sheet order and
sorted by display name, fulfilled entries sorted by timestamp descending
(skuModel abstracts getSkuModelMap, the Price Book join). -/
def computeBolLists (skuModel : String → Option String) (plan : List PlanRow) :
    List BolItem × List BolItem :=
  let step := fun (acc : List BolItem × List (BolItem × Nat)) (r : PlanRow) =>
    if r.c = "" then acc
    else
      let sku := String.mk ((splitOnCh '|' r.c.data).getD 1 [])
      let modelName := (skuModel sku).getD sku
      let item : BolItem := ⟨r.c, r.c ++ " (" ++ modelName ++ ")"⟩
      if r.g = "Fulfilled" then (acc.1, acc.2 ++ [(item, r.a)])
      else if acc.1.any (fun it => it.key = r.c) then acc
      else (acc.1 ++ [item], acc.2)
  let pair := plan.foldl step ([], [])
  (List.insertionSort (fun a b : BolItem => a.display.data ≤ b.display.data) pair.1,
   (List.insertionSort (fun a b : BolItem × Nat => b.2 ≤ a.2) pair.2).map (·.1))

/-- The JSON payload getInitialBolData serializes back to the sidebar. -/
structure BolPayload where
  success : Bool
  pendingList : List BolItem
  fulfilledList : List BolItem
deriving DecidableEq, Repr

/-- getInitialBolData: when both cache keys are present it answers from
the cache without opening the planning sheet; otherwise it computes both
lists from the sheet, stores them with a 300 second TTL and returns them.
The trailing Bool records whether the planning sheet was read. -/
def getInitialBolData (skuModel : String → Option String) (plan : List PlanRow)
    (cache : BolCache) : BolPayload × BolCache × Bool :=
  match cache.pending, cache.fulfilled with
  | some (p, _), some (f, _) => (⟨true, p, f⟩, cache, false)
  | _, _ =>
    if plan.isEmpty then
      (⟨true, [], []⟩, ⟨some ([], 300), some ([], 300)⟩, true)
    else
      let pair := computeBolLists skuModel plan
      (⟨true, pair.1, pair.2⟩, ⟨some (pair.1, 300), some (pair.2, 300)⟩, true)

/-! ## The new-PO upload queue (src/unnamed/part_005) -/

/-- A queued upload task: the Drive id of the temporary file and the
final file name (the submittedAt field plays no role in processing). -/
structure PoTask where
  tempFileId : String
  finalFileName : String
deriving DecidableEq, Repr

/-- The state the queue machinery touches: the NEW_PO_UPLOAD_QUEUE script
property (none when deleted, otherwise the JSON-parsed task list), the
number of project triggers installed for processNewPoUploadQueue, and the
log of tasks whose temp file has been moved into the final Drive folder. -/
structure QueueState where
  queueProp : Option (List PoTask)
  triggers : Nat
  drive : List PoTask
deriving DecidableEq, Repr

/-- manageNewPoQueueTrigger_: installs a one-shot time-based trigger for
the handler only when none exists. -/
def manageNewPoQueueTrigger_ (s : QueueState) : QueueState :=
  if s.triggers = 0 then { s with triggers := 1 } else s

/-- processNewPoUploadQueue: under the script lock it deletes every
existing handler trigger, dequeues and processes the head task, then
either persists the shortened queue and re-arms the trigger or deletes
the queue property.  When the lock cannot be acquired within 15000 ms it
returns with no effect. -/
def processNewPoUploadQueue (lockOk : Bool) (s : QueueState) : QueueState :=
  if ¬ lockOk then s
  else
    let s1 : QueueState := { s with triggers := 0 }
    match s1.queueProp with
    | none => { s1 with queueProp := none }
    | some [] => { s1 with queueProp := none }
    | some (t :: rest) =>
      let s2 : QueueState := { s1 with drive := s1.drive ++ [t] }
      if rest.isEmpty then { s2 with queueProp := none }
      else manageNewPoQueueTrigger_ { s2 with queueProp := some rest }

/-- addTaskToNewPoQueue_: appends the task to the persisted queue and,
exactly when the queue was empty beforehand, starts processing
immediately (lockOk models the inner lock acquisition). -/
def addTaskToNewPoQueue_ (lockOk : Bool) (t : PoTask) (s : QueueState) : QueueState :=
  let queue := s.queueProp.getD []
  let wasQueueEmpty := queue.isEmpty
  let s1 : QueueState := { s with queueProp := some (queue ++ [t]) }
  if wasQueueEmpty then processNewPoUploadQueue lockOk s1 else s1

/-! ## Serial sheets: onEditSerial (src/[PAUSE]EditLog_onEdit.js) and
getSerialsForEditing (src/SerialAssignmentToolgs.js) -/

/-- One data row of the 'Serial # | Raw Data' sheet: SKU (column B),
serial number (column D), inbound date (column M, empty string when
blank), order number (column N), and the remaining columns abstracted
as an opaque list. -/
structure RawRow where
  sku : String
  serial : String
  inbound : String
  orderN : String
  rest : List String
deriving DecidableEq, Repr

/-- The index a JavaScript Map from serial values to row indices holds
after map.set was called for every row with a non-empty serial in order:
the last matching index. -/
def serialMapGet (rows : List RawRow) (s : String) : Option Nat :=
  if s = "" then none else findLastIdx (fun r => r.serial = s) rows

/-- onEditSerial, restricted to its effect on the 'Serial # | Raw Data'
sheet: for an edit of the serial-list cell (column X = 24) of the order
table, writes the order number into column N of the rows whose serial
entered the list and clears column N of the rows whose serial left it,
through one batch write.  The Bool records whether the batch write to the
target sheet happened.  (The alert-and-revert path for an empty order
number touches only the source sheet.) -/
def onEditSerial (sheetName : String) (col : Nat) (orderNumber oldValue newValue : String)
    (target : List RawRow) : Bool × List RawRow :=
  if sheetName ≠ "Order Shipping Mgt. Table" ∨ col ≠ 24 then (false, target)
  else if orderNumber = "" ∧ newValue ≠ "" then (false, target)
  else
    let oldSerials := dedupFirst (splitTrim oldValue)
    let newSerials := dedupFirst (splitTrim newValue)
    let serialsToAdd := newSerials.filter (fun s => ¬ oldSerials.contains s)
    let serialsToRemove := oldSerials.filter (fun s => ¬ newSerials.contains s)
    if serialsToAdd.isEmpty ∧ serialsToRemove.isEmpty then (false, target)
    else if target.isEmpty then (false, target)
    else
      let afterAdd := serialsToAdd.foldl (fun acc s =>
        match serialMapGet target s with
        | some i => modifyAt (fun r => { r with orderN := orderNumber }) i acc
        | none => acc) target
      let afterRemove := serialsToRemove.foldl (fun acc s =>
        match serialMapGet target s with
        | some i => modifyAt (fun r => { r with orderN := "" }) i acc
        | none => acc) afterAdd
      (true, afterRemove)

/-- One data row of the Serial #_DB sheet, columns A..B as read by
getSerialsForEditing: serial number and assigned PO|SKU key. -/
structure DbRow where
  serial : String
  key : String
deriving DecidableEq, Repr

/-- The value a JavaScript Map from serials to PO|SKU keys holds after
map.set was called for every Serial #_DB row in order. -/
def usedMapGet : List DbRow → String → Option String
  | [], _ => none
  | d :: ds, s =>
    match usedMapGet ds s with
    | some k => some k
    | none => if d.serial = s then some d.key else none

/-- getSerialsForEditing: the serials of the given SKU that have an
inbound date and are not recorded in Serial #_DB for a different PO|SKU
key, sorted ascending. -/
def getSerialsForEditing (sku poSkuKey : String) (raw : List RawRow)
    (db : List DbRow) : List String :=
  if sku = "" ∨ poSkuKey = "" then []
  else
    let allSkuSerials := dedupFirst
      ((raw.filter (fun r => r.sku = sku ∧ r.inbound ≠ "")).map (fun r => r.serial))
    let availableSerials := allSkuSerials.filter (fun s =>
      match usedMapGet db s with
      | none => true
      | some k => k = poSkuKey)
    List.insertionSort strLe availableSerials

/-- getSerialsForEditing as its caller sees it, error channel included:
a missing sheet is thrown, caught, and re-thrown to the caller (modelled
as Except.error), rather than converted into a result object. -/
def getSerialsForEditingCall (sku poSkuKey : String) (raw : Option (List RawRow))
    (db : Option (List DbRow)) : Except String (List String) :=
  if sku = "" ∨ poSkuKey = "" then .ok []
  else
    match raw, db with
    | some rawRows, some dbRows => .ok (getSerialsForEditing sku poSkuKey rawRows dbRows)
    | _, _ => .error "Required sheets not found."

/-! ## logOrderShippingEdit (src/unnamed/part_003) -/

/-- One row of the 'Order Shipping|Edit History' log sheet:
timestamp, P/O identifier, row, field name, action, new value, old
value, user. -/
structure LogRow where
  ts : Nat
  identifier : String
  row : Nat
  field : String
  action : String
  newValue : String
  oldValue : String
  user : String
deriving DecidableEq, Repr

/-- logOrderShippingEdit, restricted to its effect on the log sheet:
for an edit on the watched sheet below the two header rows in columns
1..29 whose stringified old and new values differ, appends exactly one
log row; identifier and fieldName stand for the cells read from column B
of the edited row and row 2 of the edited column.  (The Created Time /
Last Updated Time / Latest Update Record writes back into the main sheet
are not part of the log sheet and are not modelled.) -/
def logOrderShippingEdit (sheetName : String) (row col : Nat)
    (oldValue value : Option String) (identifier fieldName : String)
    (ts : Nat) (user : String) (log : List LogRow) : List LogRow :=
  if sheetName ≠ "Order Shipping Mgt. Table" ∨ row ≤ 2 ∨ col < 1 ∨ col > 29 then log
  else
    let o := oldValue.getD ""
    let n := value.getD ""
    if o = n then log
    else
      log ++ [⟨ts, identifier, row, fieldName,
               (if o = "" then "Created" else "Updated"), n, o, user⟩]

/-! ## archiveProcessedPOs_Safe (src/[PAUSE]EditLog_onEdit.js) -/

/-- True when the status in column Y (index 24) marks a row for
archiving. -/
def isArchivableStatus (row : List String) : Bool :=
  let s := row.getD 24 ""
  s = "Change" ∨ s = "Voided" ∨ s = "Revised"

/-- Clears the ARRAYFORMULA-controlled columns E, Q, W (indices 4, 16,
22) of one kept row. -/
def clearArrayFormulaCols (row : List String) : List String :=
  ((row.set 4 "").set 16 "").set 22 ""

/-- archiveProcessedPOs_Safe over the full source sheet (header row
included) and the archive sheet: splits the data rows by status, appends
the archivable ones to the archive (writing the header first when the
archive is empty), and writes the kept rows back with columns E, Q, W
cleared; with no archivable row, or no data row at all, nothing changes. -/
def archiveProcessedPOs_Safe (source archive : List (List String)) :
    List (List String) × List (List String) :=
  let headerRows := 1
  if source.length ≤ headerRows then (source, archive)
  else
    let headers := source.take headerRows
    let sourceDataRows := source.drop headerRows
    let part := sourceDataRows.foldl
      (fun (acc : List (List String) × List (List String)) row =>
        if isArchivableStatus row then (acc.1 ++ [row], acc.2)
        else (acc.1, acc.2 ++ [row])) ([], [])
    let dataToArchive := part.1
    let keptRows := part.2
    if dataToArchive.isEmpty then (source, archive)
    else
      let archiveBase := if archive.isEmpty then headers else archive
      (headers ++ keptRows.map clearArrayFormulaCols, archiveBase ++ dataToArchive)

/-! ## Helper lemmas -/

theorem modifyAt_length (f : α → α) (i : Nat) (l : List α) :
    (modifyAt f i l).length = l.length := by
  induction l generalizing i with
  | nil => cases i <;> rfl
  | cons a as ih =>
    cases i with
    | zero => rfl
    | succ n => simpa [modifyAt] using ih n

theorem modifyAt_get? (f : α → α) (i : Nat) (l : List α) (j : Nat) :
    (modifyAt f i l).get? j = if j = i then (l.get? j).map f else l.get? j := by
  induction l generalizing i j with
  | nil => simp [modifyAt]
  | cons a as ih =>
    cases i with
    | zero =>
      cases j with
      | zero => simp [modifyAt]
      | succ m => simp [modifyAt]
    | succ n =>
      cases j with
      | zero => simp [modifyAt]
      | succ m => simpa [modifyAt, Nat.succ_eq_add_one] using ih n m

theorem findFirstIdx_eq_none (p : α → Bool) (l : List α)
    (h : ∀ a ∈ l, p a = false) : findFirstIdx p l = none := by
  induction l with
  | nil => rfl
  | cons a as ih =>
    have ha := h a (List.mem_cons_self a as)
    have htail : findFirstIdx p as = none := ih (fun b hb => h b (List.mem_cons_of_mem a hb))
    simp [findFirstIdx, ha, htail]

theorem findFirstIdx_eq_some (p : α → Bool) (l : List α) (i : Nat)
    (hi : i < l.length) (hp : p (l.get ⟨i, hi⟩) = true)
    (hfirst : ∀ j (hj : j < l.length), j < i → p (l.get ⟨j, hj⟩) = false) :
    findFirstIdx p l = some i := by
  induction l generalizing i with
  | nil => exact absurd hi (by simp)
  | cons a as ih =>
    cases i with
    | zero => simpa [findFirstIdx] using hp
    | succ n =>
      have ha : p a = false := hfirst 0 (by simp) (Nat.succ_pos n)
      have hn : n < as.length := Nat.lt_of_succ_lt_succ hi
      have htail : findFirstIdx p as = some n := by
        refine ih n hn (by simpa using hp) ?_
        intro j hj hjn
        have := hfirst (j + 1) (Nat.succ_lt_succ hj) (Nat.succ_lt_succ hjn)
        simpa using this
      simp [findFirstIdx, ha, htail]

theorem findLastIdx_eq_none_iff (p : α → Bool) (l : List α) :
    findLastIdx p l = none ↔ ∀ a ∈ l, p a = false := by
  induction l with
  | nil => simp [findLastIdx]
  | cons a as ih =>
    cases hfl : findLastIdx p as with
    | some k =>
      simp only [findLastIdx, hfl]
      constructor
      · intro h; exact absurd h (by simp)
      · intro h
        have : findLastIdx p as = none := ih.mpr (fun b hb => h b (List.mem_cons_of_mem a hb))
        rw [this] at hfl; exact absurd hfl (by simp)
    | none =>
      have htail := ih.mp hfl
      simp only [findLastIdx, hfl]
      cases hpa : p a with
      | true => simp [hpa]
      | false =>
        simp only [hpa, Bool.false_eq_true, if_false, true_iff]
        intro b hb
        rcases List.mem_cons.mp hb with h | h
        · rw [h]; exact hpa
        · exact htail b h

theorem findLastIdx_eq_some_get (p : α → Bool) (l : List α) (i : Nat)
    (h : findLastIdx p l = some i) : ∃ hi : i < l.length, p (l.get ⟨i, hi⟩) = true := by
  induction l generalizing i with
  | nil => exact absurd h (by simp [findLastIdx])
  | cons a as ih =>
    cases hfl : findLastIdx p as with
    | some k =>
      simp only [findLastIdx, hfl, Option.some.injEq] at h
      obtain ⟨hk, hpk⟩ := ih k hfl
      subst h
      exact ⟨Nat.succ_lt_succ hk, by simpa using hpk⟩
    | none =>
      simp only [findLastIdx, hfl] at h
      cases hpa : p a with
      | false => rw [hpa] at h; exact absurd h (by simp)
      | true =>
        rw [hpa] at h
        simp only [if_true, Option.some.injEq] at h
        subst h
        exact ⟨by simp, by simpa using hpa⟩

theorem findLastIdx_isSome (p : α → Bool) (l : List α) (i : Nat)
    (hi : i < l.length) (hp : p (l.get ⟨i, hi⟩) = true) :
    (findLastIdx p l).isSome = true := by
  cases hfl : findLastIdx p l with
  | some k => rfl
  | none =>
    have := (findLastIdx_eq_none_iff p l).mp hfl (l.get ⟨i, hi⟩) (l.get_mem i hi)
    rw [hp] at this
    exact absurd this (by simp)

theorem dedupFirst_mem (x : String) (l : List String) : x ∈ dedupFirst l ↔ x ∈ l := by
  induction l with
  | nil => simp [dedupFirst]
  | cons s rest ih =>
    by_cases hxs : x = s
    · subst hxs; simp [dedupFirst]
    · simp only [dedupFirst, List.mem_cons, List.mem_filter, ih, decide_eq_true_eq]
      constructor
      · rintro (h | ⟨h, -⟩)
        · exact Or.inl h
        · exact Or.inr h
      · rintro (h | h)
        · exact Or.inl h
        · exact Or.inr ⟨h, hxs⟩

theorem splitTrim_mem_ne_empty {s v : String} (h : s ∈ splitTrim v) : s ≠ "" := by
  have := List.mem_filter.mp h
  simpa using this.2

/-! ## Claim theorems -/

/-- C1: key-based upsert of savePlanningData.  When the parsed qtyE plus
qtyW equals the parsed totalQty, the first Shipment_Planning_DB row whose
column C equals the key gets its columns A..F overwritten with the
timestamp, user, key, est. ship date and the two quantities while every
other row (and its own column G) is unchanged; with no matching row one
new six-value row is appended; the call returns success.  On a quantity
mismatch the call returns failure and the sheet is unchanged. -/
theorem savePlanningData_upsert (env : Env) (input : PlanInput) (sheet : List PlanRow) :
    (input.totalQtyP = some (input.qtyEP.getD 0 + input.qtyWP.getD 0) →
      ((∀ i (hi : i < sheet.length), (sheet.get ⟨i, hi⟩).c = input.poSkuKey →
          (∀ j (hj : j < sheet.length), j < i → (sheet.get ⟨j, hj⟩).c ≠ input.poSkuKey) →
          (savePlanningData env input sheet).1 = true ∧
          (savePlanningData env input sheet).2.get? i =
            some { sheet.get ⟨i, hi⟩ with
                   a := env.now, b := env.user, c := input.poSkuKey,
                   d := input.estShipDate, e := input.qtyEP.getD 0, f := input.qtyWP.getD 0 } ∧
          ∀ j, j ≠ i → (savePlanningData env input sheet).2.get? j = sheet.get? j) ∧
        ((∀ r ∈ sheet, r.c ≠ input.poSkuKey) →
          savePlanningData env input sheet =
            (true, sheet ++ [⟨env.now, env.user, input.poSkuKey, input.estShipDate,
                             input.qtyEP.getD 0, input.qtyWP.getD 0, ""⟩])))) ∧
    (input.totalQtyP ≠ some (input.qtyEP.getD 0 + input.qtyWP.getD 0) →
      savePlanningData env input sheet = (false, sheet)) := by
  constructor
  · intro hq
    constructor
    · intro i hi hc hfirst
      have hfind : findFirstIdx (fun r => r.c = input.poSkuKey) sheet = some i := by
        refine findFirstIdx_eq_some _ _ i hi (by simpa using hc) ?_
        intro j hj hji
        simpa using hfirst j hj hji
      have heq : savePlanningData env input sheet =
          (true, modifyAt (fun r =>
            { r with a := env.now, b := env.user, c := input.poSkuKey,
                     d := input.estShipDate, e := input.qtyEP.getD 0,
                     f := input.qtyWP.getD 0 }) i sheet) := by
        simp [savePlanningData, hq, hfind]
      refine ⟨by rw [heq], ?_, ?_⟩
      · rw [heq, modifyAt_get?, if_pos rfl, List.get?_eq_get hi]
        rfl
      · intro j hji
        rw [heq, modifyAt_get?]
        simp [hji]
    · intro hnone
      have hfind : findFirstIdx (fun r => r.c = input.poSkuKey) sheet = none :=
        findFirstIdx_eq_none _ _ (fun r hr => by simpa using hnone r hr)
      simp [savePlanningData, hq, hfind]
  · intro hq
    simp [savePlanningData, hq]

/-- C1 witness: the upsert theorem applied at concrete inputs, updating
the key row of a two-row sheet. -/
theorem savePlanningData_upsert_witness :
    ((⟨"K1", 5, some 10, some 4, some 6⟩ : PlanInput).totalQtyP =
      some ((some (4 : Int)).getD 0 + (some (6 : Int)).getD 0)) ∧
    ((savePlanningData ⟨"u", 7⟩ ⟨"K1", 5, some 10, some 4, some 6⟩
        [⟨1, "v", "K0", 2, 1, 1, ""⟩, ⟨1, "v", "K1", 2, 1, 1, "Fulfilled"⟩]).1 = true ∧
      (savePlanningData ⟨"u", 7⟩ ⟨"K1", 5, some 10, some 4, some 6⟩
        [⟨1, "v", "K0", 2, 1, 1, ""⟩, ⟨1, "v", "K1", 2, 1, 1, "Fulfilled"⟩]).2.get? 1 =
        some ⟨7, "u", "K1", 5, 4, 6, "Fulfilled"⟩ ∧
      ∀ j, j ≠ 1 →
        (savePlanningData ⟨"u", 7⟩ ⟨"K1", 5, some 10, some 4, some 6⟩
          [⟨1, "v", "K0", 2, 1, 1, ""⟩, ⟨1, "v", "K1", 2, 1, 1, "Fulfilled"⟩]).2.get? j =
          [(⟨1, "v", "K0", 2, 1, 1, ""⟩ : PlanRow), ⟨1, "v", "K1", 2, 1, 1, "Fulfilled"⟩].get? j) := by
  refine ⟨by decide, ?_⟩
  exact ((savePlanningData_upsert ⟨"u", 7⟩ ⟨"K1", 5, some 10, some 4, some 6⟩
    [⟨1, "v", "K0", 2, 1, 1, ""⟩, ⟨1, "v", "K1", 2, 1, 1, "Fulfilled"⟩]).1
    (by decide)).1 1 (by decide) (by decide) (by decide)

theorem bolRows_filterMap_eq (d : BolData) (ts : Nat) (bs : List BolEntry) :
    (bs.filterMap (fun b =>
      match b.shippedQtyP with
      | some q => if b.bolNumber ≠ "" ∧ q > 0 then some (mkBolRow d ts b q) else none
      | none => none)) =
    (bs.filter (fun b => b.bolNumber ≠ "" ∧ b.shippedQtyP.getD 0 > 0)).map
      (fun b => mkBolRow d ts b (b.shippedQtyP.getD 0)) := by
  induction bs with
  | nil => rfl
  | cons b rest ih =>
    rw [List.filterMap_cons, List.filter_cons]
    cases hq : b.shippedQtyP with
    | none => simpa using ih
    | some q =>
      by_cases hb : b.bolNumber ≠ "" ∧ q > 0
      · simp [hb, hq, ih]
      · simpa [hb] using ih

theorem updateFulfillmentStatus_first (key status : String) (ts : Nat) (plan : List PlanRow)
    (i : Nat) (hi : i < plan.length) (hc : (plan.get ⟨i, hi⟩).c = key)
    (hfirst : ∀ j (hj : j < plan.length), j < i → (plan.get ⟨j, hj⟩).c ≠ key) :
    (updateFulfillmentStatus key status ts plan).get? i =
      some { plan.get ⟨i, hi⟩ with a := ts, g := status } ∧
    ∀ j, j ≠ i → (updateFulfillmentStatus key status ts plan).get? j = plan.get? j := by
  have hfind : findFirstIdx (fun r => r.c = key) plan = some i := by
    refine findFirstIdx_eq_some _ _ i hi (by simpa using hc) ?_
    intro j hj hji
    simpa using hfirst j hj hji
  constructor
  · rw [updateFulfillmentStatus, hfind, modifyAt_get?, if_pos rfl, List.get?_eq_get hi]
    rfl
  · intro j hji
    rw [updateFulfillmentStatus, hfind, modifyAt_get?]
    simp [hji]

/-- C2: two-table reconciliation of saveBolData.  After a successful save
for key K, the BOL_DB rows carrying K are exactly the rows built from the
payload entries with a non-empty BOL number and positive parsed quantity,
the rows for other keys are untouched, and the first planning row whose
column C equals K gets column G set to Fulfilled or cleared (following
isFulfilled) and column A set to the save timestamp, all other planning
rows unchanged. -/
theorem saveBolData_reconcile (ts : Nat) (d : BolData) (bol : List BolRow)
    (plan : List PlanRow) (cache : BolCache) (hkey : d.poSkuKey ≠ "") :
    (saveBolData ts d bol plan cache).success = true ∧
    (saveBolData ts d bol plan cache).bol.filter (fun r => r.key = d.poSkuKey) =
      (d.bols.filter (fun b => b.bolNumber ≠ "" ∧ b.shippedQtyP.getD 0 > 0)).map
        (fun b => mkBolRow d ts b (b.shippedQtyP.getD 0)) ∧
    (saveBolData ts d bol plan cache).bol.filter (fun r => r.key ≠ d.poSkuKey) =
      bol.filter (fun r => r.key ≠ d.poSkuKey) ∧
    ∀ i (hi : i < plan.length), (plan.get ⟨i, hi⟩).c = d.poSkuKey →
      (∀ j (hj : j < plan.length), j < i → (plan.get ⟨j, hj⟩).c ≠ d.poSkuKey) →
      ((saveBolData ts d bol plan cache).plan.get? i =
        some { plan.get ⟨i, hi⟩ with
               a := ts, g := (if d.isFulfilled then "Fulfilled" else "") } ∧
      ∀ j, j ≠ i → (saveBolData ts d bol plan cache).plan.get? j = plan.get? j) := by
  have hout : saveBolData ts d bol plan cache =
      ⟨true,
       bol.filter (fun r => r.key ≠ d.poSkuKey) ++
         (d.bols.filter (fun b => b.bolNumber ≠ "" ∧ b.shippedQtyP.getD 0 > 0)).map
           (fun b => mkBolRow d ts b (b.shippedQtyP.getD 0)),
       updateFulfillmentStatus d.poSkuKey (if d.isFulfilled then "Fulfilled" else "") ts plan,
       ⟨none, none⟩⟩ := by
    rw [saveBolData, if_neg hkey, bolRows_filterMap_eq]
  have hkeptK : (bol.filter (fun r => r.key ≠ d.poSkuKey)).filter
      (fun r => r.key = d.poSkuKey) = [] := by
    rw [List.filter_eq_nil_iff]
    intro r hr
    have := (List.mem_filter.mp hr).2
    simp only [decide_eq_true_eq] at this ⊢
    exact this
  have hnewAll : ∀ r ∈ (d.bols.filter
      (fun b => b.bolNumber ≠ "" ∧ b.shippedQtyP.getD 0 > 0)).map
      (fun b => mkBolRow d ts b (b.shippedQtyP.getD 0)), r.key = d.poSkuKey := by
    intro r hr
    obtain ⟨b, -, hb⟩ := List.mem_map.mp hr
    rw [← hb]
    rfl
  refine ⟨by rw [hout], ?_, ?_, ?_⟩
  · rw [hout]
    simp only [List.filter_append, hkeptK, List.nil_append]
    rw [List.filter_eq_self]
    intro r hr
    simpa using hnewAll r hr
  · rw [hout]
    simp only [List.filter_append]
    have h1 : (bol.filter (fun r => r.key ≠ d.poSkuKey)).filter
        (fun r => r.key ≠ d.poSkuKey) = bol.filter (fun r => r.key ≠ d.poSkuKey) := by
      rw [List.filter_eq_self]
      intro r hr
      exact (List.mem_filter.mp hr).2
    have h2 : ((d.bols.filter (fun b => b.bolNumber ≠ "" ∧ b.shippedQtyP.getD 0 > 0)).map
        (fun b => mkBolRow d ts b (b.shippedQtyP.getD 0))).filter
        (fun r => r.key ≠ d.poSkuKey) = [] := by
      rw [List.filter_eq_nil_iff]
      intro r hr
      simp [hnewAll r hr]
    rw [h1, h2, List.append_nil]
  · intro i hi hc hfirst
    have := updateFulfillmentStatus_first d.poSkuKey
      (if d.isFulfilled then "Fulfilled" else "") ts plan i hi hc hfirst
    rw [hout]
    exact this

/-- C2 witness: the reconciliation theorem applied to a concrete save of
two accepted and two rejected BOL entries. -/
theorem saveBolData_reconcile_witness :
    (("K1" : String) ≠ "") ∧
    ((saveBolData 9 ⟨"K1", 3, true, [⟨"B1", some 2, none, "Y"⟩, ⟨"", some 5, some 1, "N"⟩,
        ⟨"B2", some 0, some 1, "N"⟩]⟩
      [⟨"Bx", "K1", 1, 0, 1, "", "", 1⟩, ⟨"By", "K2", 1, 0, 1, "", "", 1⟩]
      [⟨1, "v", "K1", 2, 1, 1, ""⟩] ⟨some ([], 300), none⟩).success = true ∧
     (saveBolData 9 ⟨"K1", 3, true, [⟨"B1", some 2, none, "Y"⟩, ⟨"", some 5, some 1, "N"⟩,
        ⟨"B2", some 0, some 1, "N"⟩]⟩
      [⟨"Bx", "K1", 1, 0, 1, "", "", 1⟩, ⟨"By", "K2", 1, 0, 1, "", "", 1⟩]
      [⟨1, "v", "K1", 2, 1, 1, ""⟩] ⟨some ([], 300), none⟩).bol.filter
        (fun r => r.key = "K1") =
      ([⟨"B1", some 2, none, "Y"⟩, ⟨"", some 5, some 1, "N"⟩,
        ⟨"B2", some 0, some 1, "N"⟩].filter
          (fun b : BolEntry => b.bolNumber ≠ "" ∧ b.shippedQtyP.getD 0 > 0)).map
        (fun b => mkBolRow ⟨"K1", 3, true, [⟨"B1", some 2, none, "Y"⟩,
          ⟨"", some 5, some 1, "N"⟩, ⟨"B2", some 0, some 1, "N"⟩]⟩ 9 b
          (b.shippedQtyP.getD 0))) := by
  refine ⟨by decide, ?_, ?_⟩
  · exact (saveBolData_reconcile 9 ⟨"K1", 3, true, [⟨"B1", some 2, none, "Y"⟩,
      ⟨"", some 5, some 1, "N"⟩, ⟨"B2", some 0, some 1, "N"⟩]⟩
      [⟨"Bx", "K1", 1, 0, 1, "", "", 1⟩, ⟨"By", "K2", 1, 0, 1, "", "", 1⟩]
      [⟨1, "v", "K1", 2, 1, 1, ""⟩] ⟨some ([], 300), none⟩ (by decide)).1
  · exact (saveBolData_reconcile 9 ⟨"K1", 3, true, [⟨"B1", some 2, none, "Y"⟩,
      ⟨"", some 5, some 1, "N"⟩, ⟨"B2", some 0, some 1, "N"⟩]⟩
      [⟨"Bx", "K1", 1, 0, 1, "", "", 1⟩, ⟨"By", "K2", 1, 0, 1, "", "", 1⟩]
      [⟨1, "v", "K1", 2, 1, 1, ""⟩] ⟨some ([], 300), none⟩ (by decide)).2.1

/-- C6: TTL key-value caching of getInitialBolData.  With both cache
keys present the cached lists are returned and the planning sheet is not
read; on a miss both lists are computed from the sheet and stored with a
300 second TTL; and a successful saveBolData removes both keys, so the
next getInitialBolData reads the sheet again. -/
theorem getInitialBolData_cache (m : String → Option String) (plan : List PlanRow)
    (cache : BolCache) :
    (∀ p tp f tf, cache.pending = some (p, tp) → cache.fulfilled = some (f, tf) →
      getInitialBolData m plan cache = (⟨true, p, f⟩, cache, false)) ∧
    (cache.pending = none ∨ cache.fulfilled = none →
      getInitialBolData m plan cache =
        (⟨true, (computeBolLists m plan).1, (computeBolLists m plan).2⟩,
         ⟨some ((computeBolLists m plan).1, 300), some ((computeBolLists m plan).2, 300)⟩,
         true)) ∧
    (∀ ts d bol plan2, d.poSkuKey ≠ "" →
      (saveBolData ts d bol plan2 cache).cache = ⟨none, none⟩ ∧
      (getInitialBolData m plan (saveBolData ts d bol plan2 cache).cache).2.2 = true) := by
  obtain ⟨cp, cf⟩ := cache
  refine ⟨?_, ?_, ?_⟩
  · intro p tp f tf hp hf
    simp only at hp hf
    subst hp
    subst hf
    rfl
  · intro h
    simp only at h
    cases cp with
    | none => cases cf <;> cases plan <;> rfl
    | some vp =>
      cases cf with
      | none => cases plan <;> rfl
      | some vf =>
        rcases h with h | h <;> exact absurd h (by simp)
  · intro ts d bol plan2 hk
    have hcc : (saveBolData ts d bol plan2 ⟨cp, cf⟩).cache = ⟨none, none⟩ := by
      simp [saveBolData, hk]
    refine ⟨hcc, ?_⟩
    rw [hcc]
    cases plan <;> rfl

/-- C6 witness: the caching theorem applied to a concrete cache hit and
a concrete successful save. -/
theorem getInitialBolData_cache_witness :
    ((⟨some ([⟨"a", "b"⟩], 300), some ([], 300)⟩ : BolCache).pending =
      some ([⟨"a", "b"⟩], 300) ∧
     (⟨some ([⟨"a", "b"⟩], 300), some ([], 300)⟩ : BolCache).fulfilled = some ([], 300) ∧
     getInitialBolData (fun _ => none) [⟨1, "v", "K1", 2, 1, 1, ""⟩]
        ⟨some ([⟨"a", "b"⟩], 300), some ([], 300)⟩ =
       (⟨true, [⟨"a", "b"⟩], []⟩, ⟨some ([⟨"a", "b"⟩], 300), some ([], 300)⟩, false)) ∧
    (("K1" : String) ≠ "" ∧
     (saveBolData 9 ⟨"K1", 3, false, []⟩ [] []
        ⟨some ([⟨"a", "b"⟩], 300), some ([], 300)⟩).cache = ⟨none, none⟩) := by
  refine ⟨⟨by decide, by decide, ?_⟩, by decide, ?_⟩
  · exact (getInitialBolData_cache (fun _ => none) [⟨1, "v", "K1", 2, 1, 1, ""⟩]
      ⟨some ([⟨"a", "b"⟩], 300), some ([], 300)⟩).1 [⟨"a", "b"⟩] 300 [] 300 rfl rfl
  · exact ((getInitialBolData_cache (fun _ => none) [⟨1, "v", "K1", 2, 1, 1, ""⟩]
      ⟨some ([⟨"a", "b"⟩], 300), some ([], 300)⟩).2.2 9 ⟨"K1", 3, false, []⟩ [] []
      (by decide)).1

/-- C3: persisted work queue with dequeue-process-reschedule.  A run that
holds the lock and finds a non-empty queue processes exactly the head
task; when tasks remain, the shortened queue is persisted and exactly one
handler trigger exists afterwards, and when none remain the queue
property is deleted.  addTaskToNewPoQueue_ always appends the task to the
persisted queue, and starts processing immediately exactly when the queue
was empty before the append. -/
theorem newPoQueue_dequeue_reschedule :
    (∀ (s : QueueState) (t : PoTask) (rest : List PoTask),
      s.queueProp = some (t :: rest) →
      (processNewPoUploadQueue true s).drive = s.drive ++ [t] ∧
      (rest ≠ [] → (processNewPoUploadQueue true s).queueProp = some rest ∧
                   (processNewPoUploadQueue true s).triggers = 1) ∧
      (rest = [] → (processNewPoUploadQueue true s).queueProp = none)) ∧
    (∀ (lockOk : Bool) (t : PoTask) (s : QueueState),
      s.queueProp.getD [] ≠ [] →
      addTaskToNewPoQueue_ lockOk t s =
        { s with queueProp := some (s.queueProp.getD [] ++ [t]) }) ∧
    (∀ (lockOk : Bool) (t : PoTask) (s : QueueState),
      s.queueProp.getD [] = [] →
      addTaskToNewPoQueue_ lockOk t s =
        processNewPoUploadQueue lockOk { s with queueProp := some [t] }) := by
  refine ⟨?_, ?_, ?_⟩
  · intro s t rest h
    cases rest with
    | nil => simp [processNewPoUploadQueue, h]
    | cons t2 rest2 =>
      simp [processNewPoUploadQueue, h, manageNewPoQueueTrigger_]
  · intro lockOk t s h
    have : (s.queueProp.getD []).isEmpty = false := by
      cases hq : s.queueProp.getD [] with
      | nil => exact absurd hq h
      | cons a as => rfl
    simp [addTaskToNewPoQueue_, this]
  · intro lockOk t s h
    simp [addTaskToNewPoQueue_, h]

/-- C3 witness: the queue theorem applied to a concrete two-task queue
and to concrete enqueues on an empty and a non-empty queue. -/
theorem newPoQueue_dequeue_reschedule_witness :
    ((⟨some [⟨"f1", "n1"⟩, ⟨"f2", "n2"⟩], 1, []⟩ : QueueState).queueProp =
      some (⟨"f1", "n1"⟩ :: [⟨"f2", "n2"⟩]) ∧
     (processNewPoUploadQueue true ⟨some [⟨"f1", "n1"⟩, ⟨"f2", "n2"⟩], 1, []⟩).drive =
       [] ++ [⟨"f1", "n1"⟩]) ∧
    (((⟨some [⟨"f1", "n1"⟩], 1, []⟩ : QueueState).queueProp.getD []) ≠ [] ∧
     addTaskToNewPoQueue_ true ⟨"f2", "n2"⟩ ⟨some [⟨"f1", "n1"⟩], 1, []⟩ =
       { (⟨some [⟨"f1", "n1"⟩], 1, []⟩ : QueueState) with
         queueProp := some ((some [(⟨"f1", "n1"⟩ : PoTask)]).getD [] ++ [⟨"f2", "n2"⟩]) }) ∧
    (((⟨none, 0, []⟩ : QueueState).queueProp.getD []) = [] ∧
     addTaskToNewPoQueue_ true ⟨"f1", "n1"⟩ ⟨none, 0, []⟩ =
       processNewPoUploadQueue true { (⟨none, 0, []⟩ : QueueState) with
         queueProp := some [⟨"f1", "n1"⟩] }) := by
  refine ⟨⟨rfl, ?_⟩, ⟨by decide, ?_⟩, ⟨rfl, ?_⟩⟩
  · exact (newPoQueue_dequeue_reschedule.1 ⟨some [⟨"f1", "n1"⟩, ⟨"f2", "n2"⟩], 1, []⟩
      ⟨"f1", "n1"⟩ [⟨"f2", "n2"⟩] rfl).1
  · exact newPoQueue_dequeue_reschedule.2.1 true ⟨"f2", "n2"⟩
      ⟨some [⟨"f1", "n1"⟩], 1, []⟩ (by decide)
  · exact newPoQueue_dequeue_reschedule.2.2 true ⟨"f1", "n1"⟩ ⟨none, 0, []⟩ rfl

/-- C7: when the 15000 ms lock acquisition fails, processNewPoUploadQueue
returns at once: the queue property, the handler triggers and the Drive
state are all unchanged. -/
theorem processNewPoUploadQueue_lock_failure (s : QueueState) :
    processNewPoUploadQueue false s = s := rfl

/-- C5: edit-audit logging.  An edit on the watched sheet below the two
header rows, in columns 1..29, whose stringified old and new values
differ, appends exactly one log row carrying timestamp, P/O identifier,
row, field name, action, new value, old value and user, with action
Created exactly when the old value was empty; equal values or an edit
outside the watched region append nothing. -/
theorem logOrderShippingEdit_audit (sheetName : String) (row col : Nat)
    (oldValue value : Option String) (identifier fieldName : String)
    (ts : Nat) (user : String) (log : List LogRow) :
    (sheetName = "Order Shipping Mgt. Table" → 2 < row → 1 ≤ col → col ≤ 29 →
      oldValue.getD "" ≠ value.getD "" →
      logOrderShippingEdit sheetName row col oldValue value identifier fieldName ts user log =
        log ++ [⟨ts, identifier, row, fieldName,
                 (if oldValue.getD "" = "" then "Created" else "Updated"),
                 value.getD "", oldValue.getD "", user⟩] ∧
      ((if oldValue.getD "" = "" then "Created" else "Updated") = "Created" ↔
        oldValue.getD "" = "")) ∧
    (oldValue.getD "" = value.getD "" →
      logOrderShippingEdit sheetName row col oldValue value identifier fieldName ts user log =
        log) ∧
    (sheetName ≠ "Order Shipping Mgt. Table" ∨ row ≤ 2 ∨ col < 1 ∨ col > 29 →
      logOrderShippingEdit sheetName row col oldValue value identifier fieldName ts user log =
        log) := by
  refine ⟨?_, ?_, ?_⟩
  · intro h1 h2 h3 h4 h5
    have h2' : ¬ row ≤ 2 := Nat.not_le.mpr h2
    have h3' : ¬ col < 1 := Nat.not_lt.mpr h3
    have h4' : ¬ col > 29 := Nat.not_lt.mpr h4
    constructor
    · simp [logOrderShippingEdit, h1, h2', h3', h4', h5]
    · by_cases ho : oldValue.getD "" = "" <;> simp [ho]
  · intro h5
    simp [logOrderShippingEdit, h5]
  · intro hg
    rw [logOrderShippingEdit, if_pos hg]


/-- C5 witness: the audit theorem applied to a concrete Created edit in
the watched region. -/
theorem logOrderShippingEdit_audit_witness :
    (("Order Shipping Mgt. Table" : String) = "Order Shipping Mgt. Table" ∧
     2 < 3 ∧ 1 ≤ 5 ∧ 5 ≤ 29 ∧ ((some "" : Option String).getD "" ≠ (some "x" : Option String).getD "")) ∧
    (logOrderShippingEdit "Order Shipping Mgt. Table" 3 5 (some "") (some "x")
        "PO9" "Field" 1 "u" [] =
      [] ++ [⟨1, "PO9", 3, "Field",
              (if (some "" : Option String).getD "" = "" then "Created" else "Updated"),
              (some "x" : Option String).getD "", (some "" : Option String).getD "", "u"⟩] ∧
     ((if (some "" : Option String).getD "" = "" then "Created" else "Updated") = "Created" ↔
       (some "" : Option String).getD "" = "")) := by
  refine ⟨⟨rfl, by decide, by decide, by decide, by decide⟩, ?_⟩
  exact (logOrderShippingEdit_audit "Order Shipping Mgt. Table" 3 5 (some "") (some "x")
    "PO9" "Field" 1 "u" []).1 rfl (by decide) (by decide) (by decide) (by decide)

/-- C8 counterexample: getSerialsForEditing is a public operation whose
catch block re-throws, so with both sheets missing the call at a concrete
non-empty SKU and key propagates the exception to its caller instead of
returning a result value. -/
theorem tryCatch_guarding_counterexample :
    getSerialsForEditingCall "SKU1" "PO1|SKU1" none none =
      Except.error "Required sheets not found." := rfl

/-- C8 amended: handlers such as savePlanningData swallow their errors
and return a failure result object, but public operations such as
getSerialsForEditing re-throw the caught exception, so not every public
operation returns a value to its caller. -/
theorem tryCatch_guarding_amended :
    (∀ (env : Env) (input : PlanInput), (savePlanningDataFull env input none).1 = false) ∧
    (∀ sku poSkuKey : String, sku ≠ "" → poSkuKey ≠ "" →
      getSerialsForEditingCall sku poSkuKey none none =
        Except.error "Required sheets not found.") := by
  constructor
  · intro env input
    rfl
  · intro sku poSkuKey h1 h2
    have hg : ¬ (sku = "" ∨ poSkuKey = "") := by simp [h1, h2]
    unfold getSerialsForEditingCall
    rw [if_neg hg]

/-- C8 amended witness: the amended theorem applied at a missing-sheet
call with concrete inputs. -/
theorem tryCatch_guarding_amended_witness :
    (savePlanningDataFull ⟨"u", 1⟩ ⟨"K", 1, some 0, some 0, some 0⟩ none).1 = false ∧
    (("A" : String) ≠ "" ∧ ("K" : String) ≠ "" ∧
     getSerialsForEditingCall "A" "K" none none =
       Except.error "Required sheets not found.") :=
  ⟨tryCatch_guarding_amended.1 ⟨"u", 1⟩ ⟨"K", 1, some 0, some 0, some 0⟩,
   by decide, by decide, tryCatch_guarding_amended.2 "A" "K" (by decide) (by decide)⟩

theorem foldl_partition (p : α → Bool) (l : List α) (acc1 acc2 : List α) :
    l.foldl (fun acc row => if p row then (acc.1 ++ [row], acc.2) else (acc.1, acc.2 ++ [row]))
      (acc1, acc2) = (acc1 ++ l.filter p, acc2 ++ l.filter (fun a => !(p a))) := by
  induction l generalizing acc1 acc2 with
  | nil => simp
  | cons a as ih =>
    cases hp : p a with
    | true => simp [List.foldl_cons, hp, ih, List.filter_cons]
    | false => simp [List.foldl_cons, hp, ih, List.filter_cons]

theorem filter_partition_length (p : α → Bool) (l : List α) :
    (l.filter p).length + (l.filter (fun a => !(p a))).length = l.length := by
  induction l with
  | nil => rfl
  | cons a as ih => cases hp : p a <;> simp [List.filter_cons, hp] <;> omega

/-- C10: archive partition preserves rows.  On a source sheet with at
least one data row, the archive gains exactly the data rows whose status
column Y is Change, Voided or Revised (after the header, when the archive
was empty), the source keeps exactly the other rows with columns E, Q, W
cleared, the two parts together account for every data row once, the
source header row is untouched, and with no archivable row both sheets
are unchanged. -/
theorem archiveProcessedPOs_partition (source archive : List (List String))
    (h : 1 < source.length) :
    (archiveProcessedPOs_Safe source archive).1.take 1 = source.take 1 ∧
    ((source.drop 1).filter isArchivableStatus = [] →
      archiveProcessedPOs_Safe source archive = (source, archive)) ∧
    ((source.drop 1).filter isArchivableStatus ≠ [] →
      (archiveProcessedPOs_Safe source archive).2 =
        (if archive = [] then source.take 1 else archive) ++
          (source.drop 1).filter isArchivableStatus ∧
      (archiveProcessedPOs_Safe source archive).1.drop 1 =
        ((source.drop 1).filter (fun r => !(isArchivableStatus r))).map clearArrayFormulaCols ∧
      ((source.drop 1).filter isArchivableStatus).length +
        ((source.drop 1).filter (fun r => !(isArchivableStatus r))).length =
        (source.drop 1).length) := by
  have hif : ¬ source.length ≤ 1 := Nat.not_le.mpr h
  have hA := foldl_partition isArchivableStatus (source.drop 1) [] []
  have hdef : archiveProcessedPOs_Safe source archive =
      (if ((source.drop 1).filter isArchivableStatus).isEmpty then (source, archive)
       else (source.take 1 ++
               ((source.drop 1).filter (fun r => !(isArchivableStatus r))).map
                 clearArrayFormulaCols,
             (if archive.isEmpty then source.take 1 else archive) ++
               (source.drop 1).filter isArchivableStatus)) := by
    rw [archiveProcessedPOs_Safe, if_neg hif]
    simp only [hA, List.nil_append]
  have htake1 : (source.take 1).length = 1 := by
    rw [List.length_take]
    omega
  cases hfe : ((source.drop 1).filter isArchivableStatus).isEmpty with
  | true =>
    have hnil : (source.drop 1).filter isArchivableStatus = [] :=
      List.isEmpty_iff.mp hfe
    rw [hdef, hfe]
    refine ⟨rfl, fun _ => rfl, fun hne => absurd hnil hne⟩
  | false =>
    have hne : (source.drop 1).filter isArchivableStatus ≠ [] := by
      intro hc
      rw [hc] at hfe
      exact absurd hfe (by simp)
    rw [hdef, hfe]
    simp only [Bool.false_eq_true, if_false]
    refine ⟨?_, fun hc => absurd hc hne, fun _ => ⟨?_, ?_, ?_⟩⟩
    · rw [List.take_append_eq_append_take, htake1]
      simp [List.take_of_length_le (le_of_eq htake1)]
    · cases archive with
      | nil => simp
      | cons a as => simp
    · rw [List.drop_append_eq_append_drop, htake1]
      simp only [List.drop_one, Nat.sub_self, List.drop_zero, List.append_left_eq_self]
      have hlt : (source.take 1).tail.length = 0 := by
        rw [List.length_tail, htake1]
      exact List.eq_nil_of_length_eq_zero hlt
    · exact filter_partition_length _ _

/-- C10 witness: the partition theorem applied to a concrete three-row
source sheet with one Voided row and an empty archive. -/
theorem archiveProcessedPOs_partition_witness :
    (1 < ([["H"], ["r1", "x"], (List.replicate 25 "q").set 24 "Voided"]).length) ∧
    (archiveProcessedPOs_Safe [["H"], ["r1", "x"], (List.replicate 25 "q").set 24 "Voided"]
        []).1.take 1 = ([["H"], ["r1", "x"], (List.replicate 25 "q").set 24 "Voided"]).take 1 := by
  refine ⟨by decide, ?_⟩
  exact (archiveProcessedPOs_partition [["H"], ["r1", "x"],
    (List.replicate 25 "q").set 24 "Voided"] [] (by decide)).1

theorem usedMapGet_eq_none_iff (db : List DbRow) (s : String) :
    usedMapGet db s = none ↔ ∀ d ∈ db, d.serial ≠ s := by
  induction db with
  | nil => simp [usedMapGet]
  | cons d ds ih =>
    cases hm : usedMapGet ds s with
    | some k =>
      simp only [usedMapGet, hm]
      constructor
      · intro hc; exact absurd hc (by simp)
      · intro hall
        have htail : usedMapGet ds s = none :=
          ih.mpr (fun x hx => hall x (List.mem_cons_of_mem d hx))
        rw [htail] at hm
        exact absurd hm (by simp)
    | none =>
      simp only [usedMapGet, hm]
      by_cases hd : d.serial = s
      · rw [if_pos hd]
        constructor
        · intro hc; exact absurd hc (by simp)
        · intro hall; exact absurd hd (hall d (List.mem_cons_self d ds))
      · rw [if_neg hd]
        constructor
        · intro _ x hx
          rcases List.mem_cons.mp hx with h | h
          · rw [h]; exact hd
          · exact ih.mp hm x h
        · intro _; rfl

theorem usedMapGet_some_mem (db : List DbRow) (s k : String)
    (h : usedMapGet db s = some k) : ∃ d ∈ db, d.serial = s ∧ d.key = k := by
  induction db with
  | nil => exact absurd h (by simp [usedMapGet])
  | cons d ds ih =>
    cases hm : usedMapGet ds s with
    | some k2 =>
      rw [usedMapGet, hm] at h
      have hk2 : k2 = k := Option.some.inj h
      subst hk2
      obtain ⟨d1, hd1, hs1, hk1⟩ := ih hm
      exact ⟨d1, List.mem_cons_of_mem d hd1, hs1, hk1⟩
    | none =>
      rw [usedMapGet, hm] at h
      by_cases hd : d.serial = s
      · rw [if_pos hd] at h
        exact ⟨d, List.mem_cons_self d ds, hd, Option.some.inj h⟩
      · rw [if_neg hd] at h
        exact absurd h (by simp)

theorem usedMapGet_of_mem_nodup (db : List DbRow)
    (hnd : (db.map (fun d => d.serial)).Nodup) (d : DbRow) (hd : d ∈ db)
    (s : String) (hs : d.serial = s) : usedMapGet db s = some d.key := by
  induction db with
  | nil => cases hd
  | cons d0 ds ih =>
    rw [List.map_cons, List.nodup_cons] at hnd
    rcases List.mem_cons.mp hd with heq | hmem
    · subst heq
      have hnone : usedMapGet ds s = none := by
        cases hm : usedMapGet ds s with
        | none => rfl
        | some k =>
          obtain ⟨d1, hd1, hs1, -⟩ := usedMapGet_some_mem ds s k hm
          have : d.serial ∈ ds.map (fun x => x.serial) := by
            rw [hs, ← hs1]
            exact List.mem_map_of_mem _ hd1
          exact absurd this hnd.1
      rw [usedMapGet, hnone, if_pos hs]
    · have := ih hnd.2 hmem
      rw [usedMapGet, this]

/-- C9: no double allocation offered.  For non-empty sku and key (given
that Serial #_DB records each serial at most once), getSerialsForEditing
returns exactly the serials of that SKU having an inbound date that are
absent from Serial #_DB or assigned there to this very key, in ascending
order; in particular no serial assigned to a different PO|SKU key is
ever offered. -/
theorem getSerialsForEditing_no_double_allocation (sku poSkuKey : String)
    (raw : List RawRow) (db : List DbRow) (hsku : sku ≠ "") (hkey : poSkuKey ≠ "")
    (hnd : (db.map (fun d => d.serial)).Nodup) :
    (∀ s, s ∈ getSerialsForEditing sku poSkuKey raw db ↔
      ((∃ r ∈ raw, r.sku = sku ∧ r.inbound ≠ "" ∧ r.serial = s) ∧
       ∀ d ∈ db, d.serial = s → d.key = poSkuKey)) ∧
    List.Sorted strLe (getSerialsForEditing sku poSkuKey raw db) ∧
    (∀ s ∈ getSerialsForEditing sku poSkuKey raw db,
      ∀ d ∈ db, d.serial = s → d.key = poSkuKey) := by
  have hg : ¬ (sku = "" ∨ poSkuKey = "") := by simp [hsku, hkey]
  have hdef : getSerialsForEditing sku poSkuKey raw db =
      List.insertionSort strLe
        ((dedupFirst ((raw.filter (fun r => r.sku = sku ∧ r.inbound ≠ "")).map
            (fun r => r.serial))).filter (fun s =>
          match usedMapGet db s with
          | none => true
          | some k => k = poSkuKey)) := by
    rw [getSerialsForEditing, if_neg hg]
  have hmem : ∀ s, s ∈ getSerialsForEditing sku poSkuKey raw db ↔
      ((∃ r ∈ raw, r.sku = sku ∧ r.inbound ≠ "" ∧ r.serial = s) ∧
       ∀ d ∈ db, d.serial = s → d.key = poSkuKey) := by
    intro s
    rw [hdef, (List.perm_insertionSort strLe _).mem_iff, List.mem_filter, dedupFirst_mem]
    constructor
    · rintro ⟨h1, h2⟩
      obtain ⟨r, hr, hs⟩ := List.mem_map.mp h1
      have hrf := List.mem_filter.mp hr
      have hcnd : r.sku = sku ∧ r.inbound ≠ "" := by simpa using hrf.2
      refine ⟨⟨r, hrf.1, hcnd.1, hcnd.2, hs⟩, ?_⟩
      intro d hd hds
      cases hu : usedMapGet db s with
      | none =>
        exact absurd ((usedMapGet_eq_none_iff db s).mp hu d hd) (by simp [hds])
      | some k =>
        have hk := usedMapGet_of_mem_nodup db hnd d hd s hds
        rw [hu] at hk
        have hkk : k = d.key := Option.some.inj hk
        rw [hu] at h2
        simp only [decide_eq_true_eq] at h2
        rw [← hkk]
        exact h2
    · rintro ⟨⟨r, hr, hsku2, hinb, hs⟩, h2⟩
      constructor
      · refine List.mem_map.mpr ⟨r, List.mem_filter.mpr ⟨hr, ?_⟩, hs⟩
        simp [hsku2, hinb]
      · cases hu : usedMapGet db s with
        | none => rfl
        | some k =>
          obtain ⟨d1, hd1, hs1, hk1⟩ := usedMapGet_some_mem db s k hu
          have := h2 d1 hd1 hs1
          simp [← hk1, this]
  refine ⟨hmem, ?_, ?_⟩
  · rw [hdef]
    exact List.sorted_insertionSort strLe _
  · intro s hs
    exact ((hmem s).mp hs).2

/-- C9 witness: the theorem applied to a concrete raw sheet and DB where
serial s1 belongs to another key, s3 has no inbound date and s9 is
another SKU. -/
theorem getSerialsForEditing_no_double_allocation_witness :
    (("SK" : String) ≠ "" ∧ ("K1" : String) ≠ "" ∧
     (([⟨"s1", "K2"⟩, ⟨"s4", "K1"⟩] : List DbRow).map (fun d => d.serial)).Nodup) ∧
    List.Sorted strLe (getSerialsForEditing "SK" "K1"
      [⟨"SK", "s2", "d", "", []⟩, ⟨"SK", "s1", "d", "", []⟩, ⟨"SK", "s3", "", "", []⟩,
       ⟨"SK2", "s9", "d", "", []⟩, ⟨"SK", "s4", "d", "", []⟩]
      [⟨"s1", "K2"⟩, ⟨"s4", "K1"⟩]) ∧
    (∀ s ∈ getSerialsForEditing "SK" "K1"
      [⟨"SK", "s2", "d", "", []⟩, ⟨"SK", "s1", "d", "", []⟩, ⟨"SK", "s3", "", "", []⟩,
       ⟨"SK2", "s9", "d", "", []⟩, ⟨"SK", "s4", "d", "", []⟩]
      [⟨"s1", "K2"⟩, ⟨"s4", "K1"⟩],
      ∀ d ∈ ([⟨"s1", "K2"⟩, ⟨"s4", "K1"⟩] : List DbRow), d.serial = s → d.key = "K1") := by
  refine ⟨⟨by decide, by decide, by decide⟩, ?_, ?_⟩
  · exact (getSerialsForEditing_no_double_allocation "SK" "K1"
      [⟨"SK", "s2", "d", "", []⟩, ⟨"SK", "s1", "d", "", []⟩, ⟨"SK", "s3", "", "", []⟩,
       ⟨"SK2", "s9", "d", "", []⟩, ⟨"SK", "s4", "d", "", []⟩]
      [⟨"s1", "K2"⟩, ⟨"s4", "K1"⟩] (by decide) (by decide) (by decide)).2.1
  · exact (getSerialsForEditing_no_double_allocation "SK" "K1"
      [⟨"SK", "s2", "d", "", []⟩, ⟨"SK", "s1", "d", "", []⟩, ⟨"SK", "s3", "", "", []⟩,
       ⟨"SK2", "s9", "d", "", []⟩, ⟨"SK", "s4", "d", "", []⟩]
      [⟨"s1", "K2"⟩, ⟨"s4", "K1"⟩] (by decide) (by decide) (by decide)).2.2

theorem foldl_writeOrder_length (v : String) (f : String → Option Nat)
    (ss : List String) (rs : List RawRow) :
    (ss.foldl (fun acc s =>
      match f s with
      | some i => modifyAt (fun r => { r with orderN := v }) i acc
      | none => acc) rs).length = rs.length := by
  induction ss generalizing rs with
  | nil => rfl
  | cons s ss ih =>
    rw [List.foldl_cons]
    cases hf : f s with
    | none => exact ih rs
    | some i =>
      exact (ih (modifyAt (fun r => { r with orderN := v }) i rs)).trans
        (modifyAt_length _ _ _)

theorem foldl_writeOrder_get? (v : String) (f : String → Option Nat)
    (ss : List String) (rs : List RawRow) (j : Nat) :
    (ss.foldl (fun acc s =>
      match f s with
      | some i => modifyAt (fun r => { r with orderN := v }) i acc
      | none => acc) rs).get? j =
    if ss.any (fun s => f s == some j) then
      (rs.get? j).map (fun r => { r with orderN := v })
    else rs.get? j := by
  induction ss generalizing rs with
  | nil => simp
  | cons s ss ih =>
    rw [List.foldl_cons, List.any_cons]
    cases hf : f s with
    | none =>
      have hbeq : ((none : Option Nat) == some j) = false := by simp
      rw [hbeq, Bool.false_or]
      exact ih rs
    | some i =>
      have hmain := ih (modifyAt (fun r => { r with orderN := v }) i rs)
      by_cases hij : i = j
      · subst hij
        have hbeq : ((some i : Option Nat) == some i) = true := by simp
        rw [hbeq, Bool.true_or, if_pos rfl]
        have hmod : (modifyAt (fun r => { r with orderN := v }) i rs).get? i =
            (rs.get? i).map (fun r => { r with orderN := v }) := by
          rw [modifyAt_get?, if_pos rfl]
        cases hany : ss.any (fun s2 => f s2 == some i) with
        | true =>
          rw [hany, if_pos rfl, hmod] at hmain
          refine hmain.trans ?_
          cases rs.get? i <;> rfl
        | false =>
          rw [hany] at hmain
          simp only [Bool.false_eq_true, if_false] at hmain
          exact hmain.trans hmod
      · have hbeq : ((some i : Option Nat) == some j) = false := by simp [hij]
        rw [hbeq, Bool.false_or]
        have hmod : (modifyAt (fun r => { r with orderN := v }) i rs).get? j = rs.get? j := by
          rw [modifyAt_get?, if_neg (fun hc => hij hc.symm)]
        rw [hmod] at hmain
        exact hmain

theorem nodup_serial_index (rows : List RawRow)
    (hnd : ((rows.filter (fun r => r.serial ≠ "")).map (fun r => r.serial)).Nodup) :
    ∀ i j (hi : i < rows.length) (hj : j < rows.length),
      (rows.get ⟨i, hi⟩).serial ≠ "" →
      (rows.get ⟨i, hi⟩).serial = (rows.get ⟨j, hj⟩).serial → i = j := by
  induction rows with
  | nil => intro i j hi; exact absurd hi (by simp)
  | cons r rs ih =>
    have hmem : ∀ j (hj : j < rs.length), (rs.get ⟨j, hj⟩).serial ≠ "" →
        (rs.get ⟨j, hj⟩).serial ∈ (rs.filter (fun x => x.serial ≠ "")).map
          (fun x => x.serial) := by
      intro j hj hne
      exact List.mem_map_of_mem _
        (List.mem_filter.mpr ⟨rs.get_mem j hj, by simpa using hne⟩)
    have htail : ((rs.filter (fun x => x.serial ≠ "")).map (fun x => x.serial)).Nodup := by
      by_cases hr : r.serial ≠ ""
      · have : (r :: rs).filter (fun x => x.serial ≠ "") =
            r :: rs.filter (fun x => x.serial ≠ "") := by
          rw [List.filter_cons, if_pos (by simpa using hr)]
        rw [this, List.map_cons] at hnd
        exact hnd.of_cons
      · have : (r :: rs).filter (fun x => x.serial ≠ "") =
            rs.filter (fun x => x.serial ≠ "") := by
          rw [List.filter_cons, if_neg (by simpa using hr)]
        rwa [this] at hnd
    intro i j hi hj hne heq
    cases i with
    | zero =>
      cases j with
      | zero => rfl
      | succ m =>
        exfalso
        have hm : m < rs.length := Nat.lt_of_succ_lt_succ hj
        have hne0 : r.serial ≠ "" := hne
        have heq0 : r.serial = (rs.get ⟨m, hm⟩).serial := heq
        have hfc : (r :: rs).filter (fun x => x.serial ≠ "") =
            r :: rs.filter (fun x => x.serial ≠ "") := by
          rw [List.filter_cons, if_pos (by simpa using hne0)]
        rw [hfc, List.map_cons, List.nodup_cons] at hnd
        have hmm : (rs.get ⟨m, hm⟩).serial ∈ (rs.filter (fun x => x.serial ≠ "")).map
            (fun x => x.serial) := hmem m hm (by rw [← heq0]; exact hne0)
        rw [← heq0] at hmm
        exact hnd.1 hmm
    | succ n =>
      cases j with
      | zero =>
        exfalso
        have hn : n < rs.length := Nat.lt_of_succ_lt_succ hi
        have hne' : (rs.get ⟨n, hn⟩).serial ≠ "" := hne
        have heq0 : (rs.get ⟨n, hn⟩).serial = r.serial := heq
        have hr0 : r.serial ≠ "" := by rw [← heq0]; exact hne'
        have hfc : (r :: rs).filter (fun x => x.serial ≠ "") =
            r :: rs.filter (fun x => x.serial ≠ "") := by
          rw [List.filter_cons, if_pos (by simpa using hr0)]
        rw [hfc, List.map_cons, List.nodup_cons] at hnd
        have hmm := hmem n hn hne'
        rw [heq0] at hmm
        exact hnd.1 hmm
      | succ m =>
        have hn : n < rs.length := Nat.lt_of_succ_lt_succ hi
        have hm : m < rs.length := Nat.lt_of_succ_lt_succ hj
        have hne2 : (rs.get ⟨n, hn⟩).serial ≠ "" := hne
        have heq2 : (rs.get ⟨n, hn⟩).serial = (rs.get ⟨m, hm⟩).serial := heq
        have := ih htail n m hn hm hne2 heq2
        omega

theorem serialMapGet_some (rows : List RawRow) (s : String) (i : Nat)
    (h : serialMapGet rows s = some i) :
    ∃ hi : i < rows.length, (rows.get ⟨i, hi⟩).serial = s ∧ s ≠ "" := by
  by_cases hs : s = ""
  · rw [serialMapGet, if_pos hs] at h
    exact absurd h (by simp)
  · rw [serialMapGet, if_neg hs] at h
    obtain ⟨hi, hp⟩ := findLastIdx_eq_some_get _ _ _ h
    exact ⟨hi, by simpa using hp, hs⟩

theorem serialMapGet_self (rows : List RawRow)
    (hnd : ((rows.filter (fun r => r.serial ≠ "")).map (fun r => r.serial)).Nodup)
    (j : Nat) (hj : j < rows.length) (hne : (rows.get ⟨j, hj⟩).serial ≠ "") :
    serialMapGet rows (rows.get ⟨j, hj⟩).serial = some j := by
  rw [serialMapGet, if_neg hne]
  have hsome := findLastIdx_isSome (fun r => r.serial = (rows.get ⟨j, hj⟩).serial)
    rows j hj (by simp)
  cases hfl : findLastIdx (fun r => r.serial = (rows.get ⟨j, hj⟩).serial) rows with
  | none => rw [hfl] at hsome; exact absurd hsome (by simp)
  | some i =>
    obtain ⟨hi, hp⟩ := findLastIdx_eq_some_get _ _ _ hfl
    have hps : (rows.get ⟨i, hi⟩).serial = (rows.get ⟨j, hj⟩).serial := by simpa using hp
    have hinj := nodup_serial_index rows hnd i j hi hj (by rw [hps]; exact hne) hps
    exact congrArg some hinj

/-- C4: set difference on serial edits.  For an edit of the serial-list
cell with a non-empty order number (given that non-empty serials are
unique in the target sheet), exactly the rows whose serial entered the
list get the order number written to column N, exactly the rows whose
serial left the list get column N cleared, every other row is unchanged,
and when the two lists contain the same serials no write happens. -/
theorem onEditSerial_set_difference (orderNumber oldValue newValue : String)
    (target : List RawRow) (hord : orderNumber ≠ "")
    (hnd : ((target.filter (fun r => r.serial ≠ "")).map (fun r => r.serial)).Nodup) :
    ((onEditSerial "Order Shipping Mgt. Table" 24 orderNumber oldValue newValue
        target).2.length = target.length) ∧
    (∀ i (hi : i < target.length),
      ((target.get ⟨i, hi⟩).serial ∈ splitTrim newValue ∧
          (target.get ⟨i, hi⟩).serial ∉ splitTrim oldValue →
        (onEditSerial "Order Shipping Mgt. Table" 24 orderNumber oldValue newValue
          target).2.get? i = some { target.get ⟨i, hi⟩ with orderN := orderNumber }) ∧
      ((target.get ⟨i, hi⟩).serial ∈ splitTrim oldValue ∧
          (target.get ⟨i, hi⟩).serial ∉ splitTrim newValue →
        (onEditSerial "Order Shipping Mgt. Table" 24 orderNumber oldValue newValue
          target).2.get? i = some { target.get ⟨i, hi⟩ with orderN := "" }) ∧
      (((target.get ⟨i, hi⟩).serial ∈ splitTrim newValue ↔
          (target.get ⟨i, hi⟩).serial ∈ splitTrim oldValue) →
        (onEditSerial "Order Shipping Mgt. Table" 24 orderNumber oldValue newValue
          target).2.get? i = some (target.get ⟨i, hi⟩))) ∧
    ((∀ s, s ∈ splitTrim newValue ↔ s ∈ splitTrim oldValue) →
      onEditSerial "Order Shipping Mgt. Table" 24 orderNumber oldValue newValue target =
        (false, target)) := by
  have hg1 : ¬(("Order Shipping Mgt. Table" : String) ≠ "Order Shipping Mgt. Table" ∨
      (24 : Nat) ≠ 24) := by simp
  have hg2 : ¬(orderNumber = "" ∧ newValue ≠ "") := by simp [hord]
  have hTA : ∀ s, s ∈ (dedupFirst (splitTrim newValue)).filter
        (fun s => ¬ (dedupFirst (splitTrim oldValue)).contains s) ↔
      (s ∈ splitTrim newValue ∧ s ∉ splitTrim oldValue) := by
    intro s
    rw [List.mem_filter, dedupFirst_mem]
    simp [dedupFirst_mem]
  have hTR : ∀ s, s ∈ (dedupFirst (splitTrim oldValue)).filter
        (fun s => ¬ (dedupFirst (splitTrim newValue)).contains s) ↔
      (s ∈ splitTrim oldValue ∧ s ∉ splitTrim newValue) := by
    intro s
    rw [List.mem_filter, dedupFirst_mem]
    simp [dedupFirst_mem]
  by_cases hAB : (dedupFirst (splitTrim newValue)).filter
        (fun s => ¬ (dedupFirst (splitTrim oldValue)).contains s) = [] ∧
      (dedupFirst (splitTrim oldValue)).filter
        (fun s => ¬ (dedupFirst (splitTrim newValue)).contains s) = []
  · have heval : onEditSerial "Order Shipping Mgt. Table" 24 orderNumber oldValue newValue
        target = (false, target) := by
      rw [onEditSerial, if_neg hg1, if_neg hg2]
      dsimp only
      rw [if_pos ⟨List.isEmpty_iff.mpr hAB.1, List.isEmpty_iff.mpr hAB.2⟩]
    refine ⟨by rw [heval], ?_, fun _ => heval⟩
    intro i hi
    refine ⟨?_, ?_, ?_⟩
    · rintro ⟨h1, h2⟩
      exfalso
      have hmem := (hTA (target.get ⟨i, hi⟩).serial).mpr ⟨h1, h2⟩
      rw [hAB.1] at hmem
      exact absurd hmem (List.not_mem_nil _)
    · rintro ⟨h1, h2⟩
      exfalso
      have hmem := (hTR (target.get ⟨i, hi⟩).serial).mpr ⟨h1, h2⟩
      rw [hAB.2] at hmem
      exact absurd hmem (List.not_mem_nil _)
    · intro _
      rw [heval]
      exact List.get?_eq_get hi
  · have hc1 : ¬(((dedupFirst (splitTrim newValue)).filter
          (fun s => ¬ (dedupFirst (splitTrim oldValue)).contains s)).isEmpty = true ∧
        ((dedupFirst (splitTrim oldValue)).filter
          (fun s => ¬ (dedupFirst (splitTrim newValue)).contains s)).isEmpty = true) := by
      intro hc
      exact hAB ⟨List.isEmpty_iff.mp hc.1, List.isEmpty_iff.mp hc.2⟩
    have hiffFalse : ¬ (∀ s, s ∈ splitTrim newValue ↔ s ∈ splitTrim oldValue) := by
      intro hiff
      refine hAB ⟨List.eq_nil_iff_forall_not_mem.mpr (fun s hs => ?_),
        List.eq_nil_iff_forall_not_mem.mpr (fun s hs => ?_)⟩
      · have := (hTA s).mp hs
        exact this.2 ((hiff s).mp this.1)
      · have := (hTR s).mp hs
        exact this.2 ((hiff s).mpr this.1)
    by_cases hT : target = []
    · have heval : onEditSerial "Order Shipping Mgt. Table" 24 orderNumber oldValue newValue
          target = (false, target) := by
        rw [onEditSerial, if_neg hg1, if_neg hg2]
        dsimp only
        rw [if_neg hc1, if_pos (List.isEmpty_iff.mpr hT)]
      refine ⟨by rw [heval], ?_, fun hiff => absurd hiff hiffFalse⟩
      intro i hi
      exfalso
      rw [hT] at hi
      exact absurd hi (by simp)
    · have heval : onEditSerial "Order Shipping Mgt. Table" 24 orderNumber oldValue newValue
          target =
          (true,
           ((dedupFirst (splitTrim oldValue)).filter
              (fun s => ¬ (dedupFirst (splitTrim newValue)).contains s)).foldl
             (fun acc s =>
               match serialMapGet target s with
               | some i => modifyAt (fun r => { r with orderN := "" }) i acc
               | none => acc)
             (((dedupFirst (splitTrim newValue)).filter
                (fun s => ¬ (dedupFirst (splitTrim oldValue)).contains s)).foldl
               (fun acc s =>
                 match serialMapGet target s with
                 | some i => modifyAt (fun r => { r with orderN := orderNumber }) i acc
                 | none => acc)
               target)) := by
        rw [onEditSerial, if_neg hg1, if_neg hg2]
        dsimp only
        rw [if_neg hc1, if_neg (fun hc => hT (List.isEmpty_iff.mp hc))]
      have hTAne : ∀ s ∈ (dedupFirst (splitTrim newValue)).filter
          (fun s => ¬ (dedupFirst (splitTrim oldValue)).contains s), s ≠ "" :=
        fun s hs => splitTrim_mem_ne_empty ((hTA s).mp hs).1
      have hTRne : ∀ s ∈ (dedupFirst (splitTrim oldValue)).filter
          (fun s => ¬ (dedupFirst (splitTrim newValue)).contains s), s ≠ "" :=
        fun s hs => splitTrim_mem_ne_empty ((hTR s).mp hs).1
      refine ⟨?_, ?_, fun hiff => absurd hiff hiffFalse⟩
      · rw [heval]
        dsimp only
        rw [foldl_writeOrder_length, foldl_writeOrder_length]
      · intro i hi
        have hany : ∀ ss : List String, (∀ s ∈ ss, s ≠ "") →
            ((ss.any fun s => serialMapGet target s == some i) = true ↔
              (target.get ⟨i, hi⟩).serial ∈ ss) := by
          intro ss hss
          rw [List.any_eq_true]
          constructor
          · rintro ⟨s, hs, hb⟩
            have hsm : serialMapGet target s = some i := by simpa using hb
            obtain ⟨hi2, hserial, -⟩ := serialMapGet_some target s i hsm
            have hser2 : (target.get ⟨i, hi⟩).serial = s := hserial
            rw [hser2]
            exact hs
          · intro hmem
            refine ⟨(target.get ⟨i, hi⟩).serial, hmem, ?_⟩
            have := serialMapGet_self target hnd i hi (hss _ hmem)
            simpa using this
        have hgets : (onEditSerial "Order Shipping Mgt. Table" 24 orderNumber oldValue
            newValue target).2.get? i =
            if (((dedupFirst (splitTrim oldValue)).filter
                (fun s => ¬ (dedupFirst (splitTrim newValue)).contains s)).any
                  fun s => serialMapGet target s == some i) then
              (if (((dedupFirst (splitTrim newValue)).filter
                  (fun s => ¬ (dedupFirst (splitTrim oldValue)).contains s)).any
                    fun s => serialMapGet target s == some i) then
                (target.get? i).map (fun r => { r with orderN := orderNumber })
              else target.get? i).map (fun r => { r with orderN := "" })
            else
              (if (((dedupFirst (splitTrim newValue)).filter
                  (fun s => ¬ (dedupFirst (splitTrim oldValue)).contains s)).any
                    fun s => serialMapGet target s == some i) then
                (target.get? i).map (fun r => { r with orderN := orderNumber })
              else target.get? i) := by
          rw [heval]
          dsimp only
          rw [foldl_writeOrder_get?, foldl_writeOrder_get?]
        refine ⟨?_, ?_, ?_⟩
        · rintro ⟨h1, h2⟩
          have hinTA := (hTA (target.get ⟨i, hi⟩).serial).mpr ⟨h1, h2⟩
          have hAtrue := (hany _ hTAne).mpr hinTA
          have hRfalse : (((dedupFirst (splitTrim oldValue)).filter
              (fun s => ¬ (dedupFirst (splitTrim newValue)).contains s)).any
                fun s => serialMapGet target s == some i) = false := by
            cases hb : (((dedupFirst (splitTrim oldValue)).filter
                (fun s => ¬ (dedupFirst (splitTrim newValue)).contains s)).any
                  fun s => serialMapGet target s == some i) with
            | true =>
              exfalso
              have hm := (hany _ hTRne).mp hb
              exact h2 ((hTR _).mp hm).1
            | false => rfl
          rw [hgets, hRfalse, hAtrue]
          simp only [if_true, Bool.false_eq_true, if_false]
          rw [List.get?_eq_get hi]
          rfl
        · rintro ⟨h1, h2⟩
          have hinTR := (hTR (target.get ⟨i, hi⟩).serial).mpr ⟨h1, h2⟩
          have hRtrue := (hany _ hTRne).mpr hinTR
          have hAfalse : (((dedupFirst (splitTrim newValue)).filter
              (fun s => ¬ (dedupFirst (splitTrim oldValue)).contains s)).any
                fun s => serialMapGet target s == some i) = false := by
            cases hb : (((dedupFirst (splitTrim newValue)).filter
                (fun s => ¬ (dedupFirst (splitTrim oldValue)).contains s)).any
                  fun s => serialMapGet target s == some i) with
            | true =>
              exfalso
              have hm := (hany _ hTAne).mp hb
              exact h2 ((hTA _).mp hm).1
            | false => rfl
          rw [hgets, hRtrue, hAfalse]
          simp only [if_true, Bool.false_eq_true, if_false]
          rw [List.get?_eq_get hi]
          rfl
        · intro hiff
          have hAfalse : (((dedupFirst (splitTrim newValue)).filter
              (fun s => ¬ (dedupFirst (splitTrim oldValue)).contains s)).any
                fun s => serialMapGet target s == some i) = false := by
            cases hb : (((dedupFirst (splitTrim newValue)).filter
                (fun s => ¬ (dedupFirst (splitTrim oldValue)).contains s)).any
                  fun s => serialMapGet target s == some i) with
            | true =>
              exfalso
              have hm := (hany _ hTAne).mp hb
              have := (hTA _).mp hm
              exact this.2 (hiff.mp this.1)
            | false => rfl
          have hRfalse : (((dedupFirst (splitTrim oldValue)).filter
              (fun s => ¬ (dedupFirst (splitTrim newValue)).contains s)).any
                fun s => serialMapGet target s == some i) = false := by
            cases hb : (((dedupFirst (splitTrim oldValue)).filter
                (fun s => ¬ (dedupFirst (splitTrim newValue)).contains s)).any
                  fun s => serialMapGet target s == some i) with
            | true =>
              exfalso
              have hm := (hany _ hTRne).mp hb
              have := (hTR _).mp hm
              exact this.2 (hiff.mpr this.1)
            | false => rfl
          rw [hgets, hAfalse, hRfalse]
          simp only [Bool.false_eq_true, if_false]
          exact List.get?_eq_get hi

/-- C4 witness: the set-difference theorem applied to a concrete edit
replacing serial s1 with s3, on a four-row target sheet. -/
theorem onEditSerial_set_difference_witness :
    (("ORD1" : String) ≠ "" ∧
     ((([⟨"SK", "s1", "d", "ORD1", []⟩, ⟨"SK", "s2", "d", "ORD1", []⟩,
        ⟨"SK", "s4", "d", "", []⟩, ⟨"SK", "s3", "d", "", []⟩] : List RawRow).filter
          (fun r => r.serial ≠ "")).map (fun r => r.serial)).Nodup) ∧
    (onEditSerial "Order Shipping Mgt. Table" 24 "ORD1" "s1, s2" "s2, s3"
      [⟨"SK", "s1", "d", "ORD1", []⟩, ⟨"SK", "s2", "d", "ORD1", []⟩,
       ⟨"SK", "s4", "d", "", []⟩, ⟨"SK", "s3", "d", "", []⟩]).2.length = 4 := by
  refine ⟨⟨by decide, by decide⟩, ?_⟩
  exact (onEditSerial_set_difference "ORD1" "s1, s2" "s2, s3"
    [⟨"SK", "s1", "d", "ORD1", []⟩, ⟨"SK", "s2", "d", "ORD1", []⟩,
     ⟨"SK", "s4", "d", "", []⟩, ⟨"SK", "s3", "d", "", []⟩] (by decide) (by decide)).1

end HSUS
